import Mathlib

/-!
Verification development for the altimeter token-usage telemetry extension.

This file gives a shallow embedding of the core aggregation pipeline:

* `src/shared/ModelCatalog.ts` — static model catalog and lookups,
* `src/services/StatsService.ts` — `calculateStats` / `mergeStats`,
* `src/services/DailyStatsAggregator.ts` — `aggregateByDay` and helpers,
* `src/services/ConversationService.ts` — `fetchSessionData` pagination,
* `core/ProcessHunter.ts` — multi-candidate selection in `scanByProcessName`,
* the sidebar provider's `_fetchCurrentSessionStats` cache/delta cycle.

JavaScript numbers that used in the source only ever hold integers are
modelled as `Int`; loose JSON fields are modelled by the `JNum` type
(a number, a string, or absent), so that the source's
`parseInt(x, 10) || 0` coercions and `||` truthiness chains are explicit
total functions.  JS `Array.prototype.sort` (required to be stable) is
modelled by a stable insertion sort `sortLe` over the comparator's
"keep left before right" relation.
-/

/-- A loosely typed JSON numeric field: a number, a string, or absent
(`undefined`). -/
inductive JNum where
  | num (n : Int)
  | str (s : String)
  | missing
deriving Repr, DecidableEq

/-- Digits of a decimal prefix folded to a natural number. -/
def digitsVal (ds : List Char) : Nat :=
  ds.foldl (fun a c => a * 10 + (c.toNat - 48)) 0

/-- Model of JavaScript `parseInt(s, 10)`: skip leading whitespace, read an
optional sign, then the longest digit prefix; `none` models `NaN` (no
digits). -/
def jsParseInt (s : String) : Option Int :=
  let cs := s.data.dropWhile Char.isWhitespace
  let signed : Int × List Char :=
    match cs with
    | '-' :: r => (-1, r)
    | '+' :: r => (1, r)
    | r => (1, r)
  let ds := signed.2.takeWhile Char.isDigit
  if ds.isEmpty then none else some (signed.1 * (digitsVal ds : Int))

/-- Model of `parseInt(x, 10) || 0` as used in `StatsService.calculateStats`:
a number field is returned as is (our numbers are integers, and
`parseInt(String(n), 10) = n` for integers), a string field is parsed with
`NaN` coerced to `0`, a missing field gives `0`. -/
def resolveTok : JNum → Int
  | .num n => n
  | .str s => (jsParseInt s).getD 0
  | .missing => 0

/-- Model of `DailyStatsAggregator.toNumber`: numbers pass through, strings
go through `parseInt(s, 10) || 0`, anything else is `0`.  On our `JNum`
domain this coincides with `resolveTok`, but the source has two separate
coercion helpers so we keep two definitions. -/
def toNumber : JNum → Int
  | .num n => n
  | .str s => (jsParseInt s).getD 0
  | .missing => 0

/-- JS truthiness of a `JNum` (`0`, `""` and `undefined` are falsy). -/
def jsTruthy : JNum → Bool
  | .num n => n != 0
  | .str s => s ≠ ""
  | .missing => false

/-- JS `a || b` on loose numeric fields. -/
def jsOrNum (a b : JNum) : JNum :=
  if jsTruthy a then a else b

/-- JS `a || b` where `a` is an optional string field and `b` a default:
`undefined` and `""` fall through. -/
def jsOrStr (a : Option String) (b : String) : String :=
  match a with
  | some s => if s = "" then b else s
  | none => b

/-! ## Model catalog (`src/shared/ModelCatalog.ts`) -/

/-- One entry of `MODEL_CATALOG` (color omitted: no claim mentions it). -/
structure ModelInfo where
  id : String
  displayName : String
  order : Int
deriving Repr, DecidableEq

/-- The static `MODEL_CATALOG`, in source (insertion) order. -/
def MODEL_CATALOG : List ModelInfo := [
  ⟨"MODEL_PLACEHOLDER_M18", "Gemini 3 Flash", 1⟩,
  ⟨"MODEL_PLACEHOLDER_M8", "Gemini 3 Pro (High)", 2⟩,
  ⟨"MODEL_PLACEHOLDER_M7", "Gemini 3 Pro (Low)", 3⟩,
  ⟨"MODEL_PLACEHOLDER_M12", "Claude Opus 4.5 (Thinking)", 4⟩,
  ⟨"MODEL_CLAUDE_4_5_SONNET_THINKING", "Claude Sonnet 4.5 (Thinking)", 5⟩,
  ⟨"MODEL_CLAUDE_4_5_SONNET", "Claude Sonnet 4.5", 6⟩,
  ⟨"MODEL_OPENAI_GPT_OSS_120B_MEDIUM", "GPT-OSS 120B (Medium)", 7⟩,
  ⟨"MODEL_GOOGLE_GEMINI_2_5_FLASH", "Gemini 2.5 Flash", 8⟩,
  ⟨"MODEL_GOOGLE_GEMINI_2_5_FLASH_LITE", "Gemini 2.5 Flash Lite", 9⟩]

/-- `getModelDisplayName`: catalog display name, or the raw id itself for
unknown ids (`MODEL_CATALOG[modelId]?.displayName || modelId`; every
catalog display name is non-empty so the `||` never fires on a hit). -/
def getModelDisplayName (modelId : String) : String :=
  match MODEL_CATALOG.find? (fun i => i.id = modelId) with
  | some i => i.displayName
  | none => modelId

/-- `getModelOrder`: order of the first catalog entry with the given
display name (catalog iteration order), else `999`. -/
def getModelOrder (displayName : String) : Int :=
  match MODEL_CATALOG.find? (fun i => i.displayName = displayName) with
  | some i => i.order
  | none => 999

/-! ## Raw record shapes (`src/shared/types.ts` and the loose `any` shapes
read by the services) -/

/-- The nested `usage` object of a metadata record's `chatModel`, or a
step's `modelUsage` object. -/
structure Usage where
  model : Option String
  inputTokens : JNum
  outputTokens : JNum
  cacheReadTokens : JNum
  contextTokens : JNum
deriving Repr, DecidableEq

/-- A `usage` object with every field absent (`{}` after `|| {}`). -/
def emptyUsage : Usage := ⟨none, .missing, .missing, .missing, .missing⟩

/-- The `chatModel` object of a metadata record.  The source's optional
chain `chatModel.chatStartMetadata?.contextWindowMetadata?.estimatedTokensUsed`
is flattened into the single loose field `estimatedTokensUsed`
(absent links give `undefined`, i.e. `.missing`), and
`chatStartMetadata?.createdAt` into `createdAt`. -/
structure ChatModel where
  model : Option String
  usage : Option Usage
  estimatedTokensUsed : JNum
  createdAt : Option String
deriving Repr, DecidableEq

/-- An empty `chatModel` (`item.chatModel || {}`). -/
def emptyChatModel : ChatModel := ⟨none, none, .missing, none⟩

/-- A raw metadata record as read by both aggregators. -/
structure MetadataItem where
  chatModel : Option ChatModel
  timestamp : Option String
deriving Repr, DecidableEq

/-- The `metadata` object of a step record. -/
structure StepMeta where
  modelUsage : Option Usage
  createdAt : Option String
deriving Repr, DecidableEq

/-- A raw step record as read by both aggregators. -/
structure Step where
  modelUsage : Option Usage
  metadata : Option StepMeta
deriving Repr, DecidableEq

/-- `step.modelUsage || step.metadata?.modelUsage` (objects are truthy). -/
def usageOf (s : Step) : Option Usage :=
  s.modelUsage <|> (s.metadata.bind StepMeta.modelUsage)

/-! ## Aggregated statistics (`src/shared/types.ts`) -/

/-- `ModelStats`: per-display-name accumulator. -/
structure ModelStats where
  displayName : String
  calls : Int
  input : Int
  output : Int
  cacheRead : Int
deriving Repr, DecidableEq

/-- `AggregatedStats`. -/
structure AggregatedStats where
  totalCalls : Int
  totalInput : Int
  totalOutput : Int
  totalCacheRead : Int
  lastContextSize : Int
  modelBreakdown : List ModelStats
deriving Repr, DecidableEq

/-- `StatsService.createEmptyStats`. -/
def createEmptyStats : AggregatedStats := ⟨0, 0, 0, 0, 0, []⟩

/-! ## A stable sort modelling JS `Array.prototype.sort`

`le a b` is the comparator relation "`cmp a b ≤ 0`", i.e. the sort may keep
`a` before `b`.  JS sorts are stable, so we model them by a stable
insertion sort. -/

/-- Insert `a` into `l`, before the first element `b` with `le a b`. -/
def insertLe (le : α → α → Bool) (a : α) : List α → List α
  | [] => [a]
  | b :: bs => if le a b then a :: b :: bs else b :: insertLe le a bs

/-- Stable insertion sort by `le`. -/
def sortLe (le : α → α → Bool) : List α → List α
  | [] => []
  | a :: rest => insertLe le a (sortLe le rest)

/-- The comparator of `StatsService`'s breakdown sorts:
`(a, b) => getModelOrder(a.displayName) - getModelOrder(b.displayName)`. -/
def modelLe (a b : ModelStats) : Bool :=
  getModelOrder a.displayName ≤ getModelOrder b.displayName

/-! ## `StatsService.calculateStats` -/

/-- Create-if-absent then bump, on the insertion-ordered record
`modelStats` (`Record<string, ModelStats>`): one call plus the three token
fields. -/
def bumpModel (ms : List ModelStats) (name : String) (i o c : Int) :
    List ModelStats :=
  match ms with
  | [] => [⟨name, 1, i, o, c⟩]
  | m :: rest =>
    if m.displayName = name then
      ⟨m.displayName, m.calls + 1, m.input + i, m.output + o, m.cacheRead + c⟩
        :: rest
    else m :: bumpModel rest name i o c

/-- The usage object a metadata record resolves to
(`(item.chatModel || {}).usage || {}`). -/
def metaUsage (it : MetadataItem) : Usage :=
  ((it.chatModel.getD emptyChatModel).usage).getD emptyUsage

/-- The raw model id of a metadata record
(`usage.model || chatModel.model || 'Unknown'`). -/
def metaRawModel (it : MetadataItem) : String :=
  jsOrStr (metaUsage it).model
    (jsOrStr (it.chatModel.getD emptyChatModel).model "Unknown")

/-- Body of the metadata loop of `calculateStats` (everything except the
last-index `lastContextSize` assignment, handled separately). -/
def procMeta (acc : List ModelStats × AggregatedStats) (it : MetadataItem) :
    List ModelStats × AggregatedStats :=
  let usage := metaUsage it
  let name := getModelDisplayName (metaRawModel it)
  let i := resolveTok usage.inputTokens
  let o := resolveTok usage.outputTokens
  let c := resolveTok usage.cacheReadTokens
  (bumpModel acc.1 name i o c,
    { acc.2 with
      totalCalls := acc.2.totalCalls + 1
      totalInput := acc.2.totalInput + i
      totalOutput := acc.2.totalOutput + o
      totalCacheRead := acc.2.totalCacheRead + c })

/-- Body of the steps loop of `calculateStats`: only steps carrying a usage
object contribute. -/
def procStep (acc : List ModelStats × AggregatedStats) (s : Step) :
    List ModelStats × AggregatedStats :=
  match usageOf s with
  | none => acc
  | some usage =>
    let name := getModelDisplayName (jsOrStr usage.model "Unknown")
    let i := resolveTok usage.inputTokens
    let o := resolveTok usage.outputTokens
    let c := resolveTok usage.cacheReadTokens
    (bumpModel acc.1 name i o c,
      { acc.2 with
        totalCalls := acc.2.totalCalls + 1
        totalInput := acc.2.totalInput + i
        totalOutput := acc.2.totalOutput + o
        totalCacheRead := acc.2.totalCacheRead + c })

/-- The `lastContextSize` taken from one metadata record:
`parseInt(chatStartMetadata?.contextWindowMetadata?.estimatedTokensUsed
|| usage?.contextTokens || 0, 10) || 0`. -/
def metaContextSize (it : MetadataItem) : Int :=
  resolveTok (jsOrNum (it.chatModel.getD emptyChatModel).estimatedTokensUsed
    (jsOrNum (metaUsage it).contextTokens (.num 0)))

/-- `StatsService.calculateStats`.  The source assigns `lastContextSize`
inside the metadata loop exactly when `index === metadata.length - 1`,
i.e. from the last metadata record (and leaves it `0` for an empty
array). -/
def calculateStats (metadata : List MetadataItem) (steps : List Step) :
    AggregatedStats :=
  let s1 := metadata.foldl procMeta ([], createEmptyStats)
  let s2 := steps.foldl procStep s1
  { s2.2 with
    lastContextSize :=
      match metadata.getLast? with
      | some it => metaContextSize it
      | none => 0
    modelBreakdown := sortLe modelLe s2.1 }

/-! ## `StatsService.mergeStats` -/

/-- Field-wise addition of two accumulators for the same display name. -/
def addEntry (e m : ModelStats) : ModelStats :=
  ⟨e.displayName, e.calls + m.calls, e.input + m.input, e.output + m.output,
    e.cacheRead + m.cacheRead⟩

/-- The `mergeModel` closure of `mergeStats`: copy `m` in if its display
name is absent, otherwise add its fields to the existing entry. -/
def mergeModelInto (acc : List ModelStats) (m : ModelStats) :
    List ModelStats :=
  match acc with
  | [] => [m]
  | e :: rest =>
    if e.displayName = m.displayName then addEntry e m :: rest
    else e :: mergeModelInto rest m

/-- `StatsService.mergeStats`. -/
def mergeStats (base delta : AggregatedStats) : AggregatedStats :=
  { totalCalls := base.totalCalls + delta.totalCalls
    totalInput := base.totalInput + delta.totalInput
    totalOutput := base.totalOutput + delta.totalOutput
    totalCacheRead := base.totalCacheRead + delta.totalCacheRead
    lastContextSize :=
      if delta.totalInput > 0 ∨ delta.totalCalls > 0 then
        delta.lastContextSize
      else base.lastContextSize
    modelBreakdown :=
      sortLe modelLe
        ((base.modelBreakdown ++ delta.modelBreakdown).foldl mergeModelInto []) }

/-! ## `DailyStatsAggregator` (`src/services/DailyStatsAggregator.ts`)

The aggregator depends on the local wall clock in two places only: the
window of day strings pre-created from `today` (`formatDate(today - i)` for
`i < dayCount`), and the conversion of a raw timestamp string to a local
`YYYY-MM-DD` string (`formatDate(new Date(ts))`).  Both are passed in as
parameters (`windowDays`, `fmt`); everything else is embedded from the
source.  Note `new Date` never throws, so the source's `try`/`catch`
around it is dead: an unparsable timestamp yields the string
`"NaN-NaN-NaN"`, which is simply a key absent from the bucket map. -/

/-- Per-model accumulator of a day bucket. -/
structure DayAcc where
  inputTokens : Int
  outputTokens : Int
  cacheReadTokens : Int
  calls : Int
deriving Repr, DecidableEq

/-- Totals of a day bucket. -/
structure DayTotals where
  inputTokens : Int
  outputTokens : Int
  cacheReadTokens : Int
deriving Repr, DecidableEq

/-- `DailyModelStats`: one calendar-day bucket.  `models` is the
insertion-ordered record `Record<string, {...}>`. -/
structure DailyModelStats where
  date : String
  models : List (String × DayAcc)
  totals : DayTotals
  cacheEfficiency : Int
deriving Repr, DecidableEq

/-- The sentinel date of the unknown-date bucket. -/
def unknownDateStr : String := "Unknown Date"

/-- `createEmptyDayStats`. -/
def createEmptyDayStats (date : String) : DailyModelStats :=
  ⟨date, [], ⟨0, 0, 0⟩, 0⟩

/-- The keys of the bucket map, in insertion order. -/
def bucketKeys (bs : List DailyModelStats) : List String :=
  bs.map DailyModelStats.date

/-- Whether the bucket map has a key (`dailyMap.has`). -/
def hasBucket (bs : List DailyModelStats) (k : String) : Bool :=
  bs.any (fun b => b.date = k)

/-- `dailyMap.set(d.date, d)`: replace in place if the key exists, else
append. -/
def setBucket (bs : List DailyModelStats) (d : DailyModelStats) :
    List DailyModelStats :=
  match bs with
  | [] => [d]
  | b :: rest => if b.date = d.date then d :: rest else b :: setBucket rest d

/-- Mutate the bucket stored under key `k` (the source fetches the bucket
object with `dailyMap.get(dateStr)!` and mutates it; keys are unique so
this is a map over the entries guarded by the key). -/
def updateBucket (bs : List DailyModelStats) (k : String)
    (f : DailyModelStats → DailyModelStats) : List DailyModelStats :=
  bs.map (fun b => if b.date = k then f b else b)

/-- The day-window initialization loop plus the unconditional creation of
the unknown-date bucket.  `windowDays` stands for
`[formatDate(today - i) | i < dayCount]`. -/
def initBuckets (windowDays : List String) : List DailyModelStats :=
  let bs := windowDays.foldl (fun bs k => setBucket bs (createEmptyDayStats k)) []
  if hasBucket bs unknownDateStr then bs
  else setBucket bs (createEmptyDayStats unknownDateStr)

/-- `extractDateFromItem`: `item.timestamp ||
item.chatModel?.chatStartMetadata?.createdAt`, `null` when that chain is
falsy, else the local date string of the parsed timestamp. -/
def extractDateFromItem (fmt : String → String) (it : MetadataItem) :
    Option String :=
  let ts := jsOrStr it.timestamp
    (jsOrStr (it.chatModel.bind ChatModel.createdAt) "")
  if ts = "" then none else some (fmt ts)

/-- `extractDateFromStep`: `step.metadata?.createdAt` only, `null` when
falsy. -/
def extractDateFromStep (fmt : String → String) (s : Step) : Option String :=
  let ts := jsOrStr (s.metadata.bind StepMeta.createdAt) ""
  if ts = "" then none else some (fmt ts)

/-- The bucket key a metadata record files under (`extractDateFromItem`
with the unknown-date fallback). -/
def itemKey (fmt : String → String) (it : MetadataItem) : String :=
  (extractDateFromItem fmt it).getD unknownDateStr

/-- The bucket key a step files under (`extractDateFromStep` with the
unknown-date fallback). -/
def stepKey (fmt : String → String) (s : Step) : String :=
  (extractDateFromStep fmt s).getD unknownDateStr

/-- Create-if-absent then bump on a day bucket's `models` record. -/
def bumpDayModel (ms : List (String × DayAcc)) (name : String)
    (i o c : Int) : List (String × DayAcc) :=
  match ms with
  | [] => [(name, ⟨i, o, c, 1⟩)]
  | (n, a) :: rest =>
    if n = name then
      (n, ⟨a.inputTokens + i, a.outputTokens + o, a.cacheReadTokens + c,
        a.calls + 1⟩) :: rest
    else (n, a) :: bumpDayModel rest name i o c

/-- `addItemToDay`. -/
def addItemToDay (day : DailyModelStats) (it : MetadataItem) :
    DailyModelStats :=
  let usage := metaUsage it
  let name := getModelDisplayName (metaRawModel it)
  let i := toNumber usage.inputTokens
  let o := toNumber usage.outputTokens
  let c := toNumber usage.cacheReadTokens
  { day with
    models := bumpDayModel day.models name i o c
    totals := ⟨day.totals.inputTokens + i, day.totals.outputTokens + o,
      day.totals.cacheReadTokens + c⟩ }

/-- `addStepToDay` (takes the already-resolved usage object, as in the
source). -/
def addStepToDay (day : DailyModelStats) (usage : Usage) : DailyModelStats :=
  let name := getModelDisplayName (jsOrStr usage.model "Unknown")
  let i := toNumber usage.inputTokens
  let o := toNumber usage.outputTokens
  let c := toNumber usage.cacheReadTokens
  { day with
    models := bumpDayModel day.models name i o c
    totals := ⟨day.totals.inputTokens + i, day.totals.outputTokens + o,
      day.totals.cacheReadTokens + c⟩ }

/-- One iteration of the metadata loop of `aggregateByDay`: file the record
under its key when that key has a bucket, else skip it.  (The source's
dead fallthrough for an absent unknown bucket is unreachable: `initBuckets`
always creates it.) -/
def processItem (fmt : String → String) (bs : List DailyModelStats)
    (it : MetadataItem) : List DailyModelStats :=
  let k := itemKey fmt it
  if hasBucket bs k then updateBucket bs k (fun d => addItemToDay d it) else bs

/-- One iteration of the steps loop of `aggregateByDay`: only steps
carrying a usage object are considered; the resolved key (unknown-date
fallback included) must have a bucket. -/
def processStep (fmt : String → String) (bs : List DailyModelStats)
    (s : Step) : List DailyModelStats :=
  match usageOf s with
  | none => bs
  | some usage =>
    let k := stepKey fmt s
    if hasBucket bs k then updateBucket bs k (fun d => addStepToDay d usage)
    else bs

/-- The bucket map after initialization and both folding loops, before the
unknown-bucket drop, the cache-efficiency pass and the sort. -/
def foldedBuckets (fmt : String → String) (windowDays : List String)
    (allMetadata : List MetadataItem) (steps : List Step) :
    List DailyModelStats :=
  let bs0 := initBuckets windowDays
  let bs1 := allMetadata.foldl (processItem fmt) bs0
  steps.foldl (processStep fmt) bs1

/-- Drop the unknown-date bucket when its input and output token totals
are both zero (`dailyMap.delete`). -/
def dropUnknownIfEmpty (bs : List DailyModelStats) : List DailyModelStats :=
  match bs.find? (fun b => b.date = unknownDateStr) with
  | some u =>
    if u.totals.inputTokens = 0 ∧ u.totals.outputTokens = 0 then
      bs.filter (fun b => ¬ b.date = unknownDateStr)
    else bs
  | none => bs

/-- `calculateCacheEfficiency`:
`Math.round(cacheRead / (input + cacheRead) * 100)`, `0` for a zero
denominator.  The JS double arithmetic is modelled by exact rationals;
`round` rounds half toward positive infinity exactly as `Math.round`. -/
def calculateCacheEfficiency (day : DailyModelStats) : Int :=
  let totalObservedInput := day.totals.inputTokens + day.totals.cacheReadTokens
  if totalObservedInput = 0 then 0
  else round ((day.totals.cacheReadTokens : ℚ) / (totalObservedInput : ℚ) * 100)

/-- The comparator of the final sort: unknown-date sorts after everything,
otherwise descending by date string (`b.date.localeCompare(a.date)`). -/
def dayLe (a b : DailyModelStats) : Bool :=
  if a.date = unknownDateStr then false
  else if b.date = unknownDateStr then true
  else b.date ≤ a.date

/-- `DailyStatsAggregator.aggregateByDay`, with the local-clock inputs
abstracted as `fmt` and `windowDays` (see the section comment). -/
def aggregateByDay (fmt : String → String) (windowDays : List String)
    (allMetadata : List MetadataItem) (steps : List Step) :
    List DailyModelStats :=
  let bs := dropUnknownIfEmpty (foldedBuckets fmt windowDays allMetadata steps)
  let withEff := bs.map (fun d => { d with
    cacheEfficiency := calculateCacheEfficiency d })
  sortLe dayLe withEff

/-! ## `ConversationService.fetchSessionData`
(`src/services/ConversationService.ts`)

The backend is modelled as a page function from an offset to the batch the
corresponding request returns (`getCascadeMetadata` /  `getCascadeSteps`
with `res.xxx || []` already applied).  The source loops `while (true)`
until an empty batch; the model carries a fuel bound, returning `none` when
the loop would not have terminated within it. -/

/-- One page-until-empty loop: returns the concatenated items, the final
offset, and the number of requests issued (the terminating empty-batch
request included). -/
def fetchPages (page : Nat → List α) : Nat → Nat → Option (List α × Nat × Nat)
  | 0, _ => none
  | fuel + 1, off =>
    let batch := page off
    if batch.isEmpty then some ([], off, 1)
    else
      match fetchPages page fuel (off + batch.length) with
      | none => none
      | some (items, fin, calls) => some (batch ++ items, fin, calls + 1)

/-- Result shape of `fetchSessionData`. -/
structure FetchResult where
  metadata : List MetadataItem
  steps : List Step
  nextMetaOffset : Nat
  nextStepOffset : Nat
  apiCalls : Nat
deriving Repr

/-- `ConversationService.fetchSessionData`: two independent
page-until-empty loops over different offset spaces; `apiCalls` counts one
per underlying request of either loop. -/
def fetchSessionData (metaPage : Nat → List MetadataItem)
    (stepPage : Nat → List Step) (fuel : Nat)
    (startMetaOffset startStepOffset : Nat) : Option FetchResult :=
  match fetchPages metaPage fuel startMetaOffset,
      fetchPages stepPage fuel startStepOffset with
  | some (m, mo, c1), some (s, so, c2) => some ⟨m, s, mo, so, c1 + c2⟩
  | _, _ => none

/-! ## `ProcessHunter.scanByProcessName`: multi-candidate selection

After every enumerated candidate has been probed, the source holds
`validResults: Array<{result, latestTime}>` (the latest conversation
timestamp read from each verified backend, `''` when none).  It then
returns the single element directly, or sorts descending by `latestTime`
(`(a, b) => b.latestTime.localeCompare(a.latestTime)`, a stable sort) and
returns the first element.  We model a verified candidate as a pair of an
opaque payload and its timestamp string. -/

/-- The comparator relation of the descending `latestTime` sort. -/
def timeDescLe (a b : α × String) : Bool :=
  b.2 ≤ a.2

/-- The selection step of `scanByProcessName` over the collected
`validResults` (an empty list makes the attempt loop `continue`, modelled
as `none`). -/
def selectConnection (validResults : List (α × String)) :
    Option (α × String) :=
  match validResults with
  | [] => none
  | [r] => some r
  | _ => (sortLe timeDescLe validResults).head?

/-- The first element attaining the maximal timestamp, scanning left to
right (ties keep the earlier, i.e. enumeration order). -/
def firstMaxByTime : List (α × String) → Option (α × String)
  | [] => none
  | r :: rest =>
    match firstMaxByTime rest with
    | none => some r
    | some c => if c.2 ≤ r.2 then some r else some c

/-! ## The sidebar refresh cycle
(`AltimeterViewProvider._fetchCurrentSessionStats`)

The cycle is modelled from the point where the latest conversation summary
is known (the preceding list-sessions call and the one-off discovery are
outside the cached decision being verified).  The transport-call count in
the result is the number of data-page requests issued
(`fetchSessionData`'s `apiCalls`); the cache-hit branch issues none. -/

/-- `CacheManager`'s entry (the wall-clock `timestamp` field, used only for
log output, is omitted). -/
structure CacheEntry where
  cascadeId : String
  lastModifiedTime : String
  stats : AggregatedStats
  nextMetaOffset : Nat
  nextStepOffset : Nat
deriving Repr

/-- The latest conversation summary as consumed by the cycle. -/
structure LatestConversation where
  cascadeId : String
  lastModifiedTime : String
deriving Repr

/-- The cold path of `_fetchCurrentSessionStats`: full fetch from offsets
`(0, 0)`, stats calculated from scratch, cache initialized. -/
def coldFetch (metaPage : Nat → List MetadataItem)
    (stepPage : Nat → List Step) (fuel : Nat)
    (latest : LatestConversation) :
    Option (AggregatedStats × CacheEntry × Nat) :=
  match fetchSessionData metaPage stepPage fuel 0 0 with
  | none => none
  | some r =>
    let finalStats := calculateStats r.metadata r.steps
    some (finalStats,
      ⟨latest.cascadeId, latest.lastModifiedTime, finalStats,
        r.nextMetaOffset, r.nextStepOffset⟩,
      r.apiCalls)

/-- `_fetchCurrentSessionStats` from the cache decision on: returns the
stats handed to the view, the cache entry stored afterwards, and the
number of transport (data-page) calls issued.  `none` only when a
pagination loop exceeds its fuel. -/
def refreshCycle (metaPage : Nat → List MetadataItem)
    (stepPage : Nat → List Step) (fuel : Nat)
    (cache : Option CacheEntry) (latest : LatestConversation)
    (force : Bool) : Option (AggregatedStats × CacheEntry × Nat) :=
  match cache with
  | none => coldFetch metaPage stepPage fuel latest
  | some entry =>
    if entry.cascadeId = latest.cascadeId then
      if force = false ∧ entry.lastModifiedTime = latest.lastModifiedTime then
        some (entry.stats, entry, 0)
      else
        match fetchSessionData metaPage stepPage fuel entry.nextMetaOffset
            entry.nextStepOffset with
        | none => none
        | some delta =>
          if delta.metadata.length > 0 ∨ delta.steps.length > 0 then
            let deltaStats := calculateStats delta.metadata delta.steps
            let finalStats := mergeStats entry.stats deltaStats
            some (finalStats,
              ⟨latest.cascadeId, latest.lastModifiedTime, finalStats,
                delta.nextMetaOffset, delta.nextStepOffset⟩,
              delta.apiCalls)
          else
            some (entry.stats,
              ⟨latest.cascadeId, latest.lastModifiedTime, entry.stats,
                entry.nextMetaOffset, entry.nextStepOffset⟩,
              delta.apiCalls)
    else coldFetch metaPage stepPage fuel latest

/-! ## Lemmas about the stable sort -/

theorem insertLe_perm (le : α → α → Bool) (a : α) :
    ∀ l : List α, List.Perm (insertLe le a l) (a :: l)
  | [] => by simp [insertLe]
  | b :: bs => by
    simp only [insertLe]
    by_cases hab : le a b = true
    · rw [if_pos hab]
    · rw [if_neg hab]
      exact (List.Perm.cons b (insertLe_perm le a bs)).trans
        (List.Perm.swap a b bs)

theorem sortLe_perm (le : α → α → Bool) :
    ∀ l : List α, List.Perm (sortLe le l) l
  | [] => List.Perm.refl _
  | a :: rest =>
    (insertLe_perm le a (sortLe le rest)).trans
      (List.Perm.cons a (sortLe_perm le rest))

theorem mem_insertLe {le : α → α → Bool} {a x : α} {l : List α} :
    x ∈ insertLe le a l ↔ x = a ∨ x ∈ l := by
  rw [(insertLe_perm le a l).mem_iff, List.mem_cons]

theorem mem_sortLe {le : α → α → Bool} {x : α} {l : List α} :
    x ∈ sortLe le l ↔ x ∈ l :=
  (sortLe_perm le l).mem_iff

theorem insertLe_pairwise {le : α → α → Bool}
    (htrans : ∀ x y z, le x y = true → le y z = true → le x z = true)
    (a : α) : ∀ l : List α, l.Pairwise (fun x y => le x y = true) →
    (∀ b ∈ l, le a b = true ∨ le b a = true) →
    (insertLe le a l).Pairwise (fun x y => le x y = true)
  | [], _, _ => by simp [insertLe]
  | b :: bs, h, htot => by
    rcases List.pairwise_cons.mp h with ⟨hb, hbs⟩
    simp only [insertLe]
    by_cases hab : le a b = true
    · rw [if_pos hab]
      refine List.pairwise_cons.mpr ⟨?_, h⟩
      intro x hx
      rcases List.mem_cons.mp hx with hxb | hx
      · exact hxb ▸ hab
      · exact htrans a b x hab (hb x hx)
    · rw [if_neg hab]
      refine List.pairwise_cons.mpr ⟨?_, ?_⟩
      · intro x hx
        rcases mem_insertLe.mp hx with hxa | hx
        · rw [hxa]
          rcases htot b (List.mem_cons_self b bs) with h1 | h1
          · exact absurd h1 hab
          · exact h1
        · exact hb x hx
      · exact insertLe_pairwise htrans a bs hbs
          (fun c hc => htot c (List.mem_cons_of_mem b hc))

theorem sortLe_pairwise {le : α → α → Bool}
    (htrans : ∀ x y z, le x y = true → le y z = true → le x z = true) :
    ∀ l : List α, l.Nodup →
    (∀ a ∈ l, ∀ b ∈ l, a ≠ b → le a b = true ∨ le b a = true) →
    (sortLe le l).Pairwise (fun x y => le x y = true)
  | [], _, _ => List.Pairwise.nil
  | a :: rest, hnd, htot => by
    rcases List.nodup_cons.mp hnd with ⟨ha, hndr⟩
    refine insertLe_pairwise htrans a (sortLe le rest)
      (sortLe_pairwise htrans rest hndr ?_) ?_
    · intro x hx y hy hxy
      exact htot x (List.mem_cons_of_mem a hx) y (List.mem_cons_of_mem a hy) hxy
    · intro b hb
      have hbr : b ∈ rest := mem_sortLe.mp hb
      refine htot a (List.mem_cons_self a rest) b (List.mem_cons_of_mem a hbr) ?_
      rintro rfl
      exact ha hbr

theorem insertLe_head {le : α → α → Bool} (a : α) (l : List α) :
    (insertLe le a l).head? =
      some (match l.head? with
        | none => a
        | some b => if le a b then a else b) := by
  cases l with
  | nil => simp [insertLe]
  | cons b bs =>
    by_cases hab : le a b = true <;> simp [insertLe, hab]

theorem firstMaxByTime_eq_none {α : Type} :
    ∀ {l : List (α × String)}, firstMaxByTime l = none ↔ l = []
  | [] => by simp [firstMaxByTime]
  | a :: rest => by
    simp only [firstMaxByTime]
    cases h : firstMaxByTime (α := α) rest with
    | none => simp
    | some c =>
      by_cases hc : c.2 ≤ a.2 <;> simp [hc]

theorem sortLe_timeDesc_head {α : Type} :
    ∀ l : List (α × String), (sortLe timeDescLe l).head? = firstMaxByTime l
  | [] => rfl
  | a :: rest => by
    simp only [sortLe, firstMaxByTime, insertLe_head a (sortLe timeDescLe rest),
      sortLe_timeDesc_head rest]
    cases h : firstMaxByTime (α := α) rest with
    | none => rfl
    | some c =>
      simp only [timeDescLe]
      by_cases hc : c.2 ≤ a.2 <;> simp [hc]

theorem firstMaxByTime_spec {α : Type} :
    ∀ {l : List (α × String)} {c : α × String}, firstMaxByTime l = some c →
      c ∈ l ∧ ∀ r ∈ l, r.2 ≤ c.2
  | [], c => by simp [firstMaxByTime]
  | a :: rest, c => by
    intro h
    cases hr : firstMaxByTime (α := α) rest with
    | none =>
      simp only [firstMaxByTime, hr] at h
      cases h
      have hrest : rest = [] := firstMaxByTime_eq_none.mp hr
      subst hrest
      exact ⟨by simp, by simp⟩
    | some m =>
      simp only [firstMaxByTime, hr] at h
      rcases firstMaxByTime_spec hr with ⟨hm, hmax⟩
      by_cases hc : m.2 ≤ a.2
      · rw [if_pos hc] at h
        cases h
        refine ⟨by simp, ?_⟩
        intro r hrm
        rcases List.mem_cons.mp hrm with hra | hrm
        · exact hra ▸ le_refl _
        · exact le_trans (hmax r hrm) hc
      · rw [if_neg hc] at h
        cases h
        refine ⟨List.mem_cons_of_mem a hm, ?_⟩
        intro r hrm
        rcases List.mem_cons.mp hrm with hra | hrm
        · exact hra ▸ le_of_not_le hc
        · exact hmax r hrm

/-! ## Claims -/

/-- C2: for every pair of `AggregatedStats` `(base, delta)`,
`mergeStats(base, delta).lastContextSize` equals `delta.lastContextSize`
if `delta.totalCalls > 0` or `delta.totalInput > 0`, and equals
`base.lastContextSize` otherwise. -/
theorem C2_mergeStats_lastContextSize (base delta : AggregatedStats) :
    (mergeStats base delta).lastContextSize =
      if delta.totalCalls > 0 ∨ delta.totalInput > 0 then delta.lastContextSize
      else base.lastContextSize := by
  unfold mergeStats
  by_cases h : delta.totalInput > 0 ∨ delta.totalCalls > 0
  · simp only [if_pos h, if_pos (Or.symm h)]
  · simp only [if_neg h, if_neg (fun hc => h (Or.symm hc))]

/-- C4: when the cached entry's session id equals the current session id,
the cached `lastModifiedTime` equals the session's current one, and
`force` is false, the refresh cycle returns the stored stats unchanged,
leaves the cache entry as it was, and issues zero transport calls. -/
theorem C4_cache_hit_short_circuit (metaPage : Nat → List MetadataItem)
    (stepPage : Nat → List Step) (fuel : Nat) (entry : CacheEntry)
    (latest : LatestConversation)
    (hid : entry.cascadeId = latest.cascadeId)
    (ht : entry.lastModifiedTime = latest.lastModifiedTime) :
    refreshCycle metaPage stepPage fuel (some entry) latest false =
      some (entry.stats, entry, 0) := by
  simp [refreshCycle, hid, ht]

/-- Witness for C4 at a concrete cache entry and session summary. -/
theorem C4_cache_hit_short_circuit_witness :
    refreshCycle (fun _ => []) (fun _ => []) 1
      (some ⟨"sess-1", "2026-02-04T10:00:00Z", createEmptyStats, 3, 4⟩)
      ⟨"sess-1", "2026-02-04T10:00:00Z"⟩ false =
      some (createEmptyStats,
        ⟨"sess-1", "2026-02-04T10:00:00Z", createEmptyStats, 3, 4⟩, 0) :=
  C4_cache_hit_short_circuit (fun _ => []) (fun _ => []) 1
    ⟨"sess-1", "2026-02-04T10:00:00Z", createEmptyStats, 3, 4⟩
    ⟨"sess-1", "2026-02-04T10:00:00Z"⟩ rfl rfl

/-- C5: during discovery, a single verifying candidate is returned
immediately; with several, the one whose most-recent session timestamp
sorts latest (lexicographic string comparison) is selected, the first in
enumeration order among the maxima; in particular with timestamps
`2026-02-04T10:00:00Z` and `2026-02-03T09:00:00Z` the first backend wins,
and on an exact tie the earlier-enumerated one wins. -/
theorem C5_discovery_selection :
    (∀ (α : Type) (r : α × String), selectConnection [r] = some r) ∧
    (∀ (α : Type) (l : List (α × String)) (c : α × String),
      selectConnection l = some c → c ∈ l ∧ ∀ r ∈ l, r.2 ≤ c.2) ∧
    (∀ (α : Type) (l : List (α × String)) (c : α × String),
      selectConnection l = some c → firstMaxByTime l = some c) ∧
    selectConnection
      [(("P" : String), "2026-02-04T10:00:00Z"), ("Q", "2026-02-03T09:00:00Z")]
      = some ("P", "2026-02-04T10:00:00Z") ∧
    selectConnection
      [(("P" : String), "2026-02-04T10:00:00Z"), ("Q", "2026-02-04T10:00:00Z")]
      = some ("P", "2026-02-04T10:00:00Z") := by
  have key : ∀ (α : Type) (l : List (α × String)) (c : α × String),
      selectConnection l = some c → firstMaxByTime l = some c := by
    intro α l c h
    match l with
    | [] => simp [selectConnection] at h
    | [r] =>
      simp only [selectConnection, Option.some.injEq] at h
      simp [firstMaxByTime, h]
    | a :: b :: rest =>
      rw [show selectConnection (a :: b :: rest) =
          (sortLe timeDescLe (a :: b :: rest)).head? from rfl,
        sortLe_timeDesc_head] at h
      exact h
  have h1 : ("2026-02-03T09:00:00Z" : String) ≤ "2026-02-04T10:00:00Z" := by
    simp
    decide
  have h2 : ("2026-02-04T10:00:00Z" : String) ≤ "2026-02-04T10:00:00Z" :=
    le_refl _
  refine ⟨fun α r => rfl, ?_,  key, ?_, ?_⟩
  · intro α l c h
    exact firstMaxByTime_spec (key α l c h)
  · show (sortLe timeDescLe _).head? = _
    simp [sortLe, insertLe, timeDescLe, h1]
  · show (sortLe timeDescLe _).head? = _
    simp [sortLe, insertLe, timeDescLe, h2]

/-- Witness for C5's conditional parts at concrete two-candidate lists. -/
theorem C5_discovery_selection_witness :
    (("P", "2026-02-04T10:00:00Z") ∈
        [(("P" : String), "2026-02-04T10:00:00Z"),
          ("Q", "2026-02-03T09:00:00Z")] ∧
      ∀ r ∈ [(("P" : String), "2026-02-04T10:00:00Z"),
          ("Q", "2026-02-03T09:00:00Z")],
        r.2 ≤ "2026-02-04T10:00:00Z") ∧
    firstMaxByTime
      [(("P" : String), "2026-02-04T10:00:00Z"), ("Q", "2026-02-03T09:00:00Z")]
      = some ("P", "2026-02-04T10:00:00Z") := by
  have hsel : selectConnection
      [(("P" : String), "2026-02-04T10:00:00Z"), ("Q", "2026-02-03T09:00:00Z")]
      = some ("P", "2026-02-04T10:00:00Z") := by
    have h1 : ("2026-02-03T09:00:00Z" : String) ≤ "2026-02-04T10:00:00Z" := by
      simp
      decide
    show (sortLe timeDescLe _).head? = _
    simp [sortLe, insertLe, timeDescLe, h1]
  exact ⟨C5_discovery_selection.2.1 String
      [("P", "2026-02-04T10:00:00Z"), ("Q", "2026-02-03T09:00:00Z")]
      ("P", "2026-02-04T10:00:00Z") hsel,
    C5_discovery_selection.2.2.1 String
      [("P", "2026-02-04T10:00:00Z"), ("Q", "2026-02-03T09:00:00Z")]
      ("P", "2026-02-04T10:00:00Z") hsel⟩

/-- Offsets and call counting of one page-until-empty loop: the final
offset advanced by exactly the number of returned items, the batch at the
final offset is the terminating empty one, and at least one request was
issued. -/
theorem fetchPages_spec {α : Type} (page : Nat → List α) :
    ∀ {fuel off : Nat} {items : List α} {fin calls : Nat},
      fetchPages page fuel off = some (items, fin, calls) →
      fin = off + items.length ∧ page fin = [] ∧ 1 ≤ calls
  | 0, off, items, fin, calls => by simp [fetchPages]
  | fuel + 1, off, items, fin, calls => by
    intro h
    simp only [fetchPages] at h
    by_cases hb : (page off).isEmpty = true
    · rw [if_pos hb] at h
      rcases h with ⟨rfl, rfl, rfl⟩
      exact ⟨by simp, List.isEmpty_iff.mp hb, le_refl 1⟩
    · rw [if_neg hb] at h
      cases hrec : fetchPages page fuel (off + (page off).length) with
      | none => rw [hrec] at h; cases h
      | some r =>
        rcases r with ⟨items2, fin2, calls2⟩
        rw [hrec] at h
        rcases h with ⟨rfl, rfl, rfl⟩
        rcases fetchPages_spec page hrec with ⟨hfin, hterm, hcalls⟩
        refine ⟨by rw [hfin]; simp [Nat.add_assoc], hterm, le_trans hcalls (by omega)⟩

/-- C6: `fetchSessionData(id, a, b)` pages until the first empty batch in
each of the two independent loops; it returns
`nextMetaOffset = a + |metadata|` and `nextStepOffset = b + |steps|`, the
batches at the returned offsets are the terminating empty ones, and
`apiCalls` is the sum of the two loops' request counts, each at least one
(the terminating empty-batch requests included). -/
theorem C6_fetchSessionData_offsets (metaPage : Nat → List MetadataItem)
    (stepPage : Nat → List Step) (fuel a b : Nat) (r : FetchResult)
    (h : fetchSessionData metaPage stepPage fuel a b = some r) :
    r.nextMetaOffset = a + r.metadata.length ∧
    r.nextStepOffset = b + r.steps.length ∧
    metaPage r.nextMetaOffset = [] ∧
    stepPage r.nextStepOffset = [] ∧
    ∃ cm cs : Nat,
      fetchPages metaPage fuel a = some (r.metadata, r.nextMetaOffset, cm) ∧
      fetchPages stepPage fuel b = some (r.steps, r.nextStepOffset, cs) ∧
      r.apiCalls = cm + cs ∧ 1 ≤ cm ∧ 1 ≤ cs := by
  unfold fetchSessionData at h
  cases hm : fetchPages metaPage fuel a with
  | none => rw [hm] at h; cases h
  | some rm =>
    cases hs : fetchPages stepPage fuel b with
    | none => rw [hm, hs] at h; cases h
    | some rs =>
      rcases rm with ⟨m, mo, c1⟩
      rcases rs with ⟨s, so, c2⟩
      rw [hm, hs] at h
      cases h
      rcases fetchPages_spec metaPage hm with ⟨hmo, hmterm, hc1⟩
      rcases fetchPages_spec stepPage hs with ⟨hso, hsterm, hc2⟩
      exact ⟨hmo, hso, hmterm, hsterm, c1, c2, rfl, rfl, rfl, hc1, hc2⟩

/-- Witness for C6: a backend whose metadata stream has one single-record
batch at offset 0 and whose step stream is empty, fetched from offsets
`(0, 0)`. -/
theorem C6_fetchSessionData_offsets_witness :
    (⟨[⟨none, none⟩], [], 1, 0, 3⟩ : FetchResult).nextMetaOffset =
        0 + [(⟨none, none⟩ : MetadataItem)].length ∧
      (⟨[⟨none, none⟩], [], 1, 0, 3⟩ : FetchResult).nextStepOffset =
        0 + ([] : List Step).length ∧
      (fun off => if off = 0 then [(⟨none, none⟩ : MetadataItem)] else [])
        (⟨[⟨none, none⟩], [], 1, 0, 3⟩ : FetchResult).nextMetaOffset = [] ∧
      (fun _ => ([] : List Step))
        (⟨[⟨none, none⟩], [], 1, 0, 3⟩ : FetchResult).nextStepOffset = [] ∧
      ∃ cm cs : Nat,
        fetchPages (fun off => if off = 0 then [(⟨none, none⟩ : MetadataItem)] else [])
          2 0 = some ([⟨none, none⟩], 1, cm) ∧
        fetchPages (fun _ => ([] : List Step)) 2 0 = some ([], 0, cs) ∧
        (⟨[⟨none, none⟩], [], 1, 0, 3⟩ : FetchResult).apiCalls = cm + cs ∧
        1 ≤ cm ∧ 1 ≤ cs :=
  C6_fetchSessionData_offsets
    (fun off => if off = 0 then [⟨none, none⟩] else []) (fun _ => []) 2 0 0
    ⟨[⟨none, none⟩], [], 1, 0, 3⟩ (by simp [fetchSessionData, fetchPages])

/-! ## Keyed sums over model breakdowns (for C7) -/

/-- Sum of a field over the breakdown entries carrying a given display
name. -/
def keyedSum (f : ModelStats → Int) (name : String)
    (l : List ModelStats) : Int :=
  ((l.filter (fun m => m.displayName = name)).map f).sum

theorem keyedSum_nil (f : ModelStats → Int) (name : String) :
    keyedSum f name [] = 0 := rfl

theorem keyedSum_cons (f : ModelStats → Int) (name : String)
    (m : ModelStats) (l : List ModelStats) :
    keyedSum f name (m :: l) =
      (if m.displayName = name then f m else 0) + keyedSum f name l := by
  by_cases h : m.displayName = name <;>
    simp [keyedSum, List.filter_cons, h]

theorem keyedSum_append (f : ModelStats → Int) (name : String)
    (l1 l2 : List ModelStats) :
    keyedSum f name (l1 ++ l2) = keyedSum f name l1 + keyedSum f name l2 := by
  simp [keyedSum, List.filter_append]

theorem keyedSum_sortLe (f : ModelStats → Int) (name : String)
    (le : ModelStats → ModelStats → Bool) (l : List ModelStats) :
    keyedSum f name (sortLe le l) = keyedSum f name l :=
  List.Perm.sum_eq (List.Perm.map f (List.Perm.filter _ (sortLe_perm le l)))

theorem keyedSum_mergeModelInto (f : ModelStats → Int)
    (hadd : ∀ e m, f (addEntry e m) = f e + f m) (name : String) :
    ∀ (acc : List ModelStats) (m : ModelStats),
      keyedSum f name (mergeModelInto acc m) =
        keyedSum f name acc + (if m.displayName = name then f m else 0)
  | [], m => by simp [mergeModelInto, keyedSum_cons, keyedSum_nil]
  | e :: rest, m => by
    simp only [mergeModelInto]
    by_cases he : e.displayName = m.displayName
    · rw [if_pos he, keyedSum_cons, keyedSum_cons]
      have hdn : (addEntry e m).displayName = e.displayName := rfl
      rw [hdn]
      by_cases hn : e.displayName = name
      · rw [if_pos hn, if_pos hn, if_pos (he.symm.trans hn), hadd]
        ring
      · rw [if_neg hn, if_neg hn, if_neg (fun hc => hn (he.trans hc))]
        ring
    · rw [if_neg he, keyedSum_cons, keyedSum_cons,
        keyedSum_mergeModelInto f hadd name rest m]
      ring

theorem keyedSum_foldl (f : ModelStats → Int)
    (hadd : ∀ e m, f (addEntry e m) = f e + f m) (name : String) :
    ∀ (l acc : List ModelStats),
      keyedSum f name (l.foldl mergeModelInto acc) =
        keyedSum f name acc + keyedSum f name l
  | [], acc => by simp [keyedSum_nil]
  | m :: l, acc => by
    rw [List.foldl_cons, keyedSum_foldl f hadd name l,
      keyedSum_mergeModelInto f hadd name acc m, keyedSum_cons]
    ring

theorem mergeStats_keyedSum (f : ModelStats → Int)
    (hadd : ∀ e m, f (addEntry e m) = f e + f m) (name : String)
    (A B : AggregatedStats) :
    keyedSum f name (mergeStats A B).modelBreakdown =
      keyedSum f name A.modelBreakdown + keyedSum f name B.modelBreakdown := by
  show keyedSum f name (sortLe modelLe
    ((A.modelBreakdown ++ B.modelBreakdown).foldl mergeModelInto [])) = _
  rw [keyedSum_sortLe, keyedSum_foldl f hadd name, keyedSum_nil,
    keyedSum_append]
  ring

/-- C7: `mergeStats` is commutative on the four scalar totals and on the
per-display-name sums of every breakdown field, but not on
`lastContextSize`: with both sides non-trivial the delta always wins, so
swapping the arguments can change the result. -/
theorem C7_merge_commutative_on_totals :
    (∀ A B : AggregatedStats,
      (mergeStats A B).totalCalls = (mergeStats B A).totalCalls ∧
      (mergeStats A B).totalInput = (mergeStats B A).totalInput ∧
      (mergeStats A B).totalOutput = (mergeStats B A).totalOutput ∧
      (mergeStats A B).totalCacheRead = (mergeStats B A).totalCacheRead ∧
      ∀ name : String,
        keyedSum (fun m => m.calls) name (mergeStats A B).modelBreakdown =
          keyedSum (fun m => m.calls) name (mergeStats B A).modelBreakdown ∧
        keyedSum (fun m => m.input) name (mergeStats A B).modelBreakdown =
          keyedSum (fun m => m.input) name (mergeStats B A).modelBreakdown ∧
        keyedSum (fun m => m.output) name (mergeStats A B).modelBreakdown =
          keyedSum (fun m => m.output) name (mergeStats B A).modelBreakdown ∧
        keyedSum (fun m => m.cacheRead) name (mergeStats A B).modelBreakdown =
          keyedSum (fun m => m.cacheRead) name (mergeStats B A).modelBreakdown) ∧
    (mergeStats ⟨1, 0, 0, 0, 7, []⟩ ⟨1, 0, 0, 0, 9, []⟩).lastContextSize ≠
      (mergeStats ⟨1, 0, 0, 0, 9, []⟩ ⟨1, 0, 0, 0, 7, []⟩).lastContextSize := by
  constructor
  · intro A B
    refine ⟨by simp [mergeStats]; ring, by simp [mergeStats]; ring,
      by simp [mergeStats]; ring, by simp [mergeStats]; ring, ?_⟩
    intro name
    refine ⟨?_, ?_, ?_, ?_⟩ <;>
      rw [mergeStats_keyedSum _ (fun e m => rfl) name,
        mergeStats_keyedSum _ (fun e m => rfl) name] <;> ring
  · decide

/-! ## Key uniqueness of breakdowns (for C9) -/

/-- The display names of a breakdown, in order. -/
def modelKeys (l : List ModelStats) : List String :=
  l.map ModelStats.displayName

theorem modelKeys_cons_mem (name : String) (m : ModelStats)
    (rest : List ModelStats) (hm : ¬ m.displayName = name) :
    name ∈ modelKeys (m :: rest) ↔ name ∈ modelKeys rest := by
  simp only [modelKeys, List.map_cons, List.mem_cons]
  constructor
  · rintro (h | h)
    · exact absurd h.symm hm
    · exact h
  · exact Or.inr

theorem modelKeys_bumpModel (name : String) (i o c : Int) :
    ∀ ms : List ModelStats, modelKeys (bumpModel ms name i o c) =
      if name ∈ modelKeys ms then modelKeys ms else modelKeys ms ++ [name]
  | [] => by simp [bumpModel, modelKeys]
  | m :: rest => by
    simp only [bumpModel]
    by_cases hm : m.displayName = name
    · rw [if_pos hm]
      have h1 : name ∈ modelKeys (m :: rest) := by
        simp [modelKeys, List.map_cons, hm]
      rw [if_pos h1]
      simp [modelKeys]
    · rw [if_neg hm]
      have hmem := modelKeys_cons_mem name m rest hm
      have hrec := modelKeys_bumpModel name i o c rest
      by_cases hin : name ∈ modelKeys rest
      · rw [if_pos hin] at hrec
        rw [if_pos (hmem.mpr hin)]
        simp only [modelKeys, List.map_cons] at hrec ⊢
        rw [hrec]
      · rw [if_neg hin] at hrec
        rw [if_neg (fun hc => hin (hmem.mp hc))]
        simp only [modelKeys, List.map_cons] at hrec ⊢
        rw [hrec]
        simp

theorem nodup_modelKeys_bumpModel {ms : List ModelStats}
    (h : (modelKeys ms).Nodup) (name : String) (i o c : Int) :
    (modelKeys (bumpModel ms name i o c)).Nodup := by
  rw [modelKeys_bumpModel]
  by_cases hin : name ∈ modelKeys ms
  · rwa [if_pos hin]
  · rw [if_neg hin]
    refine List.nodup_append.mpr ⟨h, List.nodup_singleton name, ?_⟩
    intro a ha hb
    rw [List.mem_singleton.mp hb] at ha
    exact hin ha

theorem modelKeys_mergeModelInto (m : ModelStats) :
    ∀ acc : List ModelStats, modelKeys (mergeModelInto acc m) =
      if m.displayName ∈ modelKeys acc then modelKeys acc
      else modelKeys acc ++ [m.displayName]
  | [] => by simp [mergeModelInto, modelKeys]
  | e :: rest => by
    simp only [mergeModelInto]
    by_cases he : e.displayName = m.displayName
    · rw [if_pos he]
      have h1 : m.displayName ∈ modelKeys (e :: rest) := by
        simp [modelKeys, List.map_cons, he]
      rw [if_pos h1]
      have h2 : (addEntry e m).displayName = e.displayName := rfl
      simp [modelKeys, h2]
    · rw [if_neg he]
      have hmem := modelKeys_cons_mem m.displayName e rest he
      have hrec := modelKeys_mergeModelInto m rest
      by_cases hin : m.displayName ∈ modelKeys rest
      · rw [if_pos hin] at hrec
        rw [if_pos (hmem.mpr hin)]
        simp only [modelKeys, List.map_cons] at hrec ⊢
        rw [hrec]
      · rw [if_neg hin] at hrec
        rw [if_neg (fun hc => hin (hmem.mp hc))]
        simp only [modelKeys, List.map_cons] at hrec ⊢
        rw [hrec]
        simp

theorem nodup_modelKeys_mergeModelInto {acc : List ModelStats}
    (h : (modelKeys acc).Nodup) (m : ModelStats) :
    (modelKeys (mergeModelInto acc m)).Nodup := by
  rw [modelKeys_mergeModelInto]
  by_cases hin : m.displayName ∈ modelKeys acc
  · rwa [if_pos hin]
  · rw [if_neg hin]
    refine List.nodup_append.mpr ⟨h, List.nodup_singleton _, ?_⟩
    intro a ha hb
    rw [List.mem_singleton.mp hb] at ha
    exact hin ha

theorem nodup_modelKeys_foldl_merge :
    ∀ (l : List ModelStats) (acc : List ModelStats),
      (modelKeys acc).Nodup → (modelKeys (l.foldl mergeModelInto acc)).Nodup
  | [], acc, h => h
  | m :: l, acc, h => by
    rw [List.foldl_cons]
    exact nodup_modelKeys_foldl_merge l _ (nodup_modelKeys_mergeModelInto h m)

theorem procMeta_fst (acc : List ModelStats × AggregatedStats)
    (it : MetadataItem) :
    (procMeta acc it).1 =
      bumpModel acc.1 (getModelDisplayName (metaRawModel it))
        (resolveTok (metaUsage it).inputTokens)
        (resolveTok (metaUsage it).outputTokens)
        (resolveTok (metaUsage it).cacheReadTokens) := rfl

theorem nodup_modelKeys_foldl_procMeta :
    ∀ (M : List MetadataItem) (acc : List ModelStats × AggregatedStats),
      (modelKeys acc.1).Nodup → (modelKeys (M.foldl procMeta acc).1).Nodup
  | [], acc, h => h
  | it :: M, acc, h => by
    rw [List.foldl_cons]
    refine nodup_modelKeys_foldl_procMeta M _ ?_
    rw [procMeta_fst]
    exact nodup_modelKeys_bumpModel h _ _ _ _

theorem nodup_modelKeys_foldl_procStep :
    ∀ (S : List Step) (acc : List ModelStats × AggregatedStats),
      (modelKeys acc.1).Nodup → (modelKeys (S.foldl procStep acc).1).Nodup
  | [], acc, h => h
  | s :: S, acc, h => by
    rw [List.foldl_cons]
    refine nodup_modelKeys_foldl_procStep S _ ?_
    cases hu : usageOf s with
    | none => simpa [procStep, hu] using h
    | some u =>
      have : (procStep acc s).1 =
          bumpModel acc.1 (getModelDisplayName (jsOrStr u.model "Unknown"))
            (resolveTok u.inputTokens) (resolveTok u.outputTokens)
            (resolveTok u.cacheReadTokens) := by
        simp [procStep, hu]
      rw [this]
      exact nodup_modelKeys_bumpModel h _ _ _ _

theorem nodup_modelKeys_sortLe {l : List ModelStats}
    (h : (modelKeys l).Nodup) (le : ModelStats → ModelStats → Bool) :
    (modelKeys (sortLe le l)).Nodup :=
  (List.Perm.nodup_iff
    (List.Perm.map ModelStats.displayName (sortLe_perm le l))).mpr h

/-- C9: every `AggregatedStats` produced by `calculateStats` or
`mergeStats` has at most one breakdown entry per display name; in
particular merging two stats whose breakdowns share a display name yields
one summed entry for that name, never a duplicate. -/
theorem C9_breakdown_keys_nodup :
    (∀ (M : List MetadataItem) (S : List Step),
      (modelKeys (calculateStats M S).modelBreakdown).Nodup) ∧
    (∀ A B : AggregatedStats,
      (modelKeys (mergeStats A B).modelBreakdown).Nodup) ∧
    (mergeStats ⟨10, 1000, 200, 100, 0, [⟨"A", 10, 1000, 200, 100⟩]⟩
        ⟨5, 500, 50, 50, 0, [⟨"A", 5, 500, 50, 50⟩]⟩).modelBreakdown =
      [⟨"A", 15, 1500, 250, 150⟩] := by
  refine ⟨?_, ?_, by decide⟩
  · intro M S
    show (modelKeys (sortLe modelLe
      (S.foldl procStep (M.foldl procMeta ([], createEmptyStats))).1)).Nodup
    exact nodup_modelKeys_sortLe
      (nodup_modelKeys_foldl_procStep S _
        (nodup_modelKeys_foldl_procMeta M _ (by simp [modelKeys]))) _
  · intro A B
    show (modelKeys (sortLe modelLe
      ((A.modelBreakdown ++ B.modelBreakdown).foldl mergeModelInto []))).Nodup
    exact nodup_modelKeys_sortLe
      (nodup_modelKeys_foldl_merge _ [] (by simp [modelKeys])) _

/-! ## Total-field fold lemmas (for C1 and C10) -/

/-- The resolved input-token contribution of one metadata record. -/
def metaInputTok (it : MetadataItem) : Int :=
  resolveTok (metaUsage it).inputTokens

/-- The resolved input-token contribution of one step record (zero for a
step with no usage object). -/
def stepInputTok (s : Step) : Int :=
  match usageOf s with
  | some u => resolveTok u.inputTokens
  | none => 0

theorem foldl_procMeta_totalCalls :
    ∀ (M : List MetadataItem) (acc : List ModelStats × AggregatedStats),
      ((M.foldl procMeta acc).2).totalCalls =
        acc.2.totalCalls + (M.length : Int)
  | [], acc => by simp
  | it :: M, acc => by
    rw [List.foldl_cons, foldl_procMeta_totalCalls M (procMeta acc it)]
    have h : ((procMeta acc it).2).totalCalls = acc.2.totalCalls + 1 := rfl
    rw [h]
    simp only [List.length_cons]
    push_cast
    ring

theorem foldl_procMeta_totalInput :
    ∀ (M : List MetadataItem) (acc : List ModelStats × AggregatedStats),
      ((M.foldl procMeta acc).2).totalInput =
        acc.2.totalInput + (M.map metaInputTok).sum
  | [], acc => by simp
  | it :: M, acc => by
    rw [List.foldl_cons, foldl_procMeta_totalInput M (procMeta acc it)]
    have h : ((procMeta acc it).2).totalInput =
        acc.2.totalInput + metaInputTok it := rfl
    rw [h, List.map_cons, List.sum_cons]
    ring

theorem foldl_procStep_totalCalls :
    ∀ (S : List Step) (acc : List ModelStats × AggregatedStats),
      ((S.foldl procStep acc).2).totalCalls =
        acc.2.totalCalls +
          ((S.filter (fun s => (usageOf s).isSome)).length : Int)
  | [], acc => by simp
  | s :: S, acc => by
    rw [List.foldl_cons, foldl_procStep_totalCalls S (procStep acc s),
      List.filter_cons]
    cases hu : usageOf s with
    | none =>
      have h1 : procStep acc s = acc := by simp [procStep, hu]
      rw [h1]
      simp [hu]
    | some u =>
      have h1 : ((procStep acc s).2).totalCalls = acc.2.totalCalls + 1 := by
        simp [procStep, hu]
      rw [h1]
      simp only [hu, Option.isSome_some, if_pos, List.length_cons]
      push_cast
      ring

theorem foldl_procStep_totalInput :
    ∀ (S : List Step) (acc : List ModelStats × AggregatedStats),
      ((S.foldl procStep acc).2).totalInput =
        acc.2.totalInput + (S.map stepInputTok).sum
  | [], acc => by simp
  | s :: S, acc => by
    rw [List.foldl_cons, foldl_procStep_totalInput S (procStep acc s),
      List.map_cons, List.sum_cons]
    cases hu : usageOf s with
    | none =>
      have h1 : procStep acc s = acc := by simp [procStep, hu]
      have h2 : stepInputTok s = 0 := by simp [stepInputTok, hu]
      rw [h1, h2]
      ring
    | some u =>
      have h1 : ((procStep acc s).2).totalInput =
          acc.2.totalInput + resolveTok u.inputTokens := by
        simp [procStep, hu]
      have h2 : stepInputTok s = resolveTok u.inputTokens := by
        simp [stepInputTok, hu]
      rw [h1, h2]
      ring

/-- C10: `calculateStats` counts one call for every metadata record (even
one with no usage object and no model id, attributed to the `Unknown`
model with zero tokens), while a step contributes only when it carries a
usage object; so `totalCalls` is the number of metadata records plus the
number of usage-bearing steps. -/
theorem C10_totalCalls_counting :
    (∀ (M : List MetadataItem) (S : List Step),
      (calculateStats M S).totalCalls =
        (M.length : Int) +
          ((S.filter (fun s => (usageOf s).isSome)).length : Int)) ∧
    calculateStats [⟨none, none⟩] [] =
      ⟨1, 0, 0, 0, 0, [⟨"Unknown", 1, 0, 0, 0⟩]⟩ ∧
    calculateStats [] [⟨none, none⟩] = createEmptyStats := by
  refine ⟨?_, by decide, by decide⟩
  intro M S
  show ((S.foldl procStep (M.foldl procMeta ([], createEmptyStats))).2).totalCalls = _
  rw [foldl_procStep_totalCalls, foldl_procMeta_totalCalls]
  show (0 : Int) + _ + _ = _
  ring

/-- C1: `calculateStats(M, S).totalInput` is the sum of the resolved
input-token fields over all metadata records and all usage-bearing steps
(missing or non-numeric fields resolving to zero), the sum is invariant
under reordering of either input, and on Scenario A's single metadata
record with usage `{input: 100, output: 50, cacheRead: 20}` the result has
`totalInput = 100`, `totalCacheRead = 20` and exactly one model entry with
`calls = 1`. -/
theorem C1_totalInput_sum :
    (∀ (M : List MetadataItem) (S : List Step),
      (calculateStats M S).totalInput =
        (M.map metaInputTok).sum + (S.map stepInputTok).sum) ∧
    (∀ (M M' : List MetadataItem) (S S' : List Step),
      List.Perm M M' → List.Perm S S' →
      (calculateStats M S).totalInput = (calculateStats M' S').totalInput) ∧
    ((calculateStats
        [⟨some ⟨some "X", some ⟨none, .num 100, .num 50, .num 20, .missing⟩,
          .missing, none⟩, none⟩] []).totalInput = 100 ∧
      (calculateStats
        [⟨some ⟨some "X", some ⟨none, .num 100, .num 50, .num 20, .missing⟩,
          .missing, none⟩, none⟩] []).totalCacheRead = 20 ∧
      (calculateStats
        [⟨some ⟨some "X", some ⟨none, .num 100, .num 50, .num 20, .missing⟩,
          .missing, none⟩, none⟩] []).modelBreakdown =
        [⟨"X", 1, 100, 50, 20⟩]) := by
  have key : ∀ (M : List MetadataItem) (S : List Step),
      (calculateStats M S).totalInput =
        (M.map metaInputTok).sum + (S.map stepInputTok).sum := by
    intro M S
    show ((S.foldl procStep (M.foldl procMeta ([], createEmptyStats))).2).totalInput = _
    rw [foldl_procStep_totalInput, foldl_procMeta_totalInput]
    show (0 : Int) + _ + _ = _
    ring
  refine ⟨key, ?_, by decide, by decide, by decide⟩
  intro M M' S S' hM hS
  rw [key, key, List.Perm.sum_eq (List.Perm.map metaInputTok hM),
    List.Perm.sum_eq (List.Perm.map stepInputTok hS)]

/-- Witness for C1's order-independence part: a two-record batch and its
swap. -/
theorem C1_totalInput_sum_witness :
    (calculateStats
      [⟨some ⟨some "X", some ⟨none, .num 100, .num 50, .num 20, .missing⟩,
        .missing, none⟩, none⟩, ⟨none, none⟩] []).totalInput =
    (calculateStats
      [⟨none, none⟩, ⟨some ⟨some "X",
        some ⟨none, .num 100, .num 50, .num 20, .missing⟩,
        .missing, none⟩, none⟩] []).totalInput := by
  exact C1_totalInput_sum.2.1 _ _ _ _ (List.Perm.swap _ _ _) (List.Perm.refl _)

/-! ## Bucket-map helper lemmas (for C3 and C8) -/

theorem hasBucket_setBucket :
    ∀ (bs : List DailyModelStats) (d : DailyModelStats),
      hasBucket (setBucket bs d) d.date = true
  | [], d => by simp [setBucket, hasBucket]
  | b :: rest, d => by
    simp only [setBucket]
    by_cases h : b.date = d.date
    · rw [if_pos h]
      simp [hasBucket]
    · rw [if_neg h]
      simp only [hasBucket, List.any_cons, Bool.or_eq_true]
      exact Or.inr (hasBucket_setBucket rest d)

/-- The unknown-date bucket is always created during initialization. -/
theorem hasBucket_initBuckets_unknown (wd : List String) :
    hasBucket (initBuckets wd) unknownDateStr = true := by
  unfold initBuckets
  by_cases h : hasBucket
      (wd.foldl (fun bs k => setBucket bs (createEmptyDayStats k)) [])
      unknownDateStr = true
  · rwa [if_pos h]
  · rw [if_neg h]
    exact hasBucket_setBucket _ (createEmptyDayStats unknownDateStr)

/-- C3 (amended): the date of a step record is resolved from the step's
own nested creation timestamp (`step.metadata?.createdAt`) only — the
resolution is invariant in every other field — but a usage-bearing step
whose creation timestamp is absent (or empty) is not skipped: its key
falls back to the unknown-date sentinel, whose bucket always exists after
initialization, so the step's usage is folded into the unknown-date
bucket exactly as a timestamp-less metadata record would be.  The
concrete run shows a dateless usage-bearing step with 5 input tokens
landing in the emitted unknown-date bucket. -/
theorem C3_step_unknown_bucket :
    (∀ (fmt : String → String) (s s' : Step),
      s.metadata.bind StepMeta.createdAt = s'.metadata.bind StepMeta.createdAt →
      extractDateFromStep fmt s = extractDateFromStep fmt s') ∧
    (∀ (fmt : String → String) (s : Step),
      jsOrStr (s.metadata.bind StepMeta.createdAt) "" = "" →
      stepKey fmt s = unknownDateStr) ∧
    (∀ wd : List String, hasBucket (initBuckets wd) unknownDateStr = true) ∧
    aggregateByDay (fun x => x) ["2026-01-05"] []
      [⟨some ⟨none, .num 5, .missing, .missing, .missing⟩, none⟩] =
      [⟨"2026-01-05", [], ⟨0, 0, 0⟩, 0⟩,
        ⟨unknownDateStr, [("Unknown", ⟨5, 0, 0, 1⟩)], ⟨5, 0, 0⟩, 0⟩] := by
  refine ⟨?_, ?_, hasBucket_initBuckets_unknown, ?_⟩
  · intro fmt s s' h
    simp only [extractDateFromStep, h]
  · intro fmt s h
    simp [stepKey, extractDateFromStep, h]
  · have hfold : foldedBuckets (fun x => x) ["2026-01-05"] []
        [⟨some ⟨none, .num 5, .missing, .missing, .missing⟩, none⟩] =
        [⟨"2026-01-05", [], ⟨0, 0, 0⟩, 0⟩,
          ⟨unknownDateStr, [("Unknown", ⟨5, 0, 0, 1⟩)], ⟨5, 0, 0⟩, 0⟩] := by
      decide
    have hdrop : dropUnknownIfEmpty
        [⟨"2026-01-05", [], ⟨0, 0, 0⟩, 0⟩,
          ⟨unknownDateStr, [("Unknown", ⟨5, 0, 0, 1⟩)], ⟨5, 0, 0⟩, 0⟩] =
        [⟨"2026-01-05", [], ⟨0, 0, 0⟩, 0⟩,
          ⟨unknownDateStr, [("Unknown", ⟨5, 0, 0, 1⟩)], ⟨5, 0, 0⟩, 0⟩] := by
      decide
    show sortLe dayLe ((dropUnknownIfEmpty (foldedBuckets _ _ _ _)).map _) = _
    rw [hfold, hdrop]
    norm_num [calculateCacheEfficiency, round_eq, sortLe, insertLe, dayLe,
      unknownDateStr]
    decide

/-- Witness for C3's conditional parts: two steps with the same (absent)
creation timestamp resolve to the same date, and a step with no
`metadata.createdAt` keys to the unknown-date bucket. -/
theorem C3_step_unknown_bucket_witness :
    extractDateFromStep (fun x => x)
        ⟨some ⟨none, .num 1, .missing, .missing, .missing⟩, none⟩ =
      extractDateFromStep (fun x => x) ⟨none, none⟩ ∧
    stepKey (fun x => x) ⟨none, none⟩ = unknownDateStr :=
  ⟨C3_step_unknown_bucket.1 (fun x => x)
      ⟨some ⟨none, .num 1, .missing, .missing, .missing⟩, none⟩
      ⟨none, none⟩ rfl,
    C3_step_unknown_bucket.2.1 (fun x => x) ⟨none, none⟩ rfl⟩

/-- Counterexample to C3 as stated: a usage-bearing step with no
resolvable date is NOT skipped — the run below files its 5 input tokens
into the unknown-date bucket, which is then emitted. -/
theorem C3_step_skip_counterexample :
    ∃ d ∈ aggregateByDay (fun x => x) ["2026-01-05"] []
      [⟨some ⟨none, .num 5, .missing, .missing, .missing⟩, none⟩],
      d.date = unknownDateStr ∧ d.totals.inputTokens = 5 := by
  have hfold : foldedBuckets (fun x => x) ["2026-01-05"] []
      [⟨some ⟨none, .num 5, .missing, .missing, .missing⟩, none⟩] =
      [⟨"2026-01-05", [], ⟨0, 0, 0⟩, 0⟩,
        ⟨unknownDateStr, [("Unknown", ⟨5, 0, 0, 1⟩)], ⟨5, 0, 0⟩, 0⟩] := by
    decide
  have hdrop : dropUnknownIfEmpty
      [⟨"2026-01-05", [], ⟨0, 0, 0⟩, 0⟩,
        ⟨unknownDateStr, [("Unknown", ⟨5, 0, 0, 1⟩)], ⟨5, 0, 0⟩, 0⟩] =
      [⟨"2026-01-05", [], ⟨0, 0, 0⟩, 0⟩,
        ⟨unknownDateStr, [("Unknown", ⟨5, 0, 0, 1⟩)], ⟨5, 0, 0⟩, 0⟩] := by
    decide
  refine ⟨⟨unknownDateStr, [("Unknown", ⟨5, 0, 0, 1⟩)], ⟨5, 0, 0⟩, 0⟩, ?_, rfl, rfl⟩
  show _ ∈ sortLe dayLe ((dropUnknownIfEmpty (foldedBuckets _ _ _ _)).map _)
  rw [hfold, hdrop]
  rw [mem_sortLe]
  norm_num [calculateCacheEfficiency, round_eq]

theorem bucketKeys_cons_mem (k : String) (b : DailyModelStats)
    (rest : List DailyModelStats) (h : ¬ b.date = k) :
    k ∈ bucketKeys (b :: rest) ↔ k ∈ bucketKeys rest := by
  simp only [bucketKeys, List.map_cons, List.mem_cons]
  constructor
  · rintro (hk | hk)
    · exact absurd hk.symm h
    · exact hk
  · exact Or.inr

theorem bucketKeys_setBucket :
    ∀ (bs : List DailyModelStats) (d : DailyModelStats),
      bucketKeys (setBucket bs d) =
        if d.date ∈ bucketKeys bs then bucketKeys bs
        else bucketKeys bs ++ [d.date]
  | [], d => by simp [setBucket, bucketKeys]
  | b :: rest, d => by
    simp only [setBucket]
    by_cases h : b.date = d.date
    · rw [if_pos h]
      have h1 : d.date ∈ bucketKeys (b :: rest) := by
        simp [bucketKeys, List.map_cons, h.symm]
      rw [if_pos h1]
      simp [bucketKeys, h]
    · rw [if_neg h]
      have hmem := bucketKeys_cons_mem d.date b rest h
      have hrec := bucketKeys_setBucket rest d
      by_cases hin : d.date ∈ bucketKeys rest
      · rw [if_pos hin] at hrec
        rw [if_pos (hmem.mpr hin)]
        simp only [bucketKeys, List.map_cons] at hrec ⊢
        rw [hrec]
      · rw [if_neg hin] at hrec
        rw [if_neg (fun hc => hin (hmem.mp hc))]
        simp only [bucketKeys, List.map_cons] at hrec ⊢
        rw [hrec]
        simp

theorem nodup_bucketKeys_setBucket {bs : List DailyModelStats}
    (h : (bucketKeys bs).Nodup) (d : DailyModelStats) :
    (bucketKeys (setBucket bs d)).Nodup := by
  rw [bucketKeys_setBucket]
  by_cases hin : d.date ∈ bucketKeys bs
  · rwa [if_pos hin]
  · rw [if_neg hin]
    refine List.nodup_append.mpr ⟨h, List.nodup_singleton _, ?_⟩
    intro a ha hb
    rw [List.mem_singleton.mp hb] at ha
    exact hin ha

theorem nodup_bucketKeys_foldl_setBucket :
    ∀ (wd : List String) (bs : List DailyModelStats),
      (bucketKeys bs).Nodup →
      (bucketKeys (wd.foldl
        (fun bs k => setBucket bs (createEmptyDayStats k)) bs)).Nodup
  | [], bs, h => h
  | k :: wd, bs, h => by
    rw [List.foldl_cons]
    exact nodup_bucketKeys_foldl_setBucket wd _ (nodup_bucketKeys_setBucket h _)

theorem nodup_bucketKeys_initBuckets (wd : List String) :
    (bucketKeys (initBuckets wd)).Nodup := by
  unfold initBuckets
  have hbase : (bucketKeys (wd.foldl
      (fun bs k => setBucket bs (createEmptyDayStats k)) [])).Nodup :=
    nodup_bucketKeys_foldl_setBucket wd [] (by simp [bucketKeys])
  by_cases h : hasBucket (wd.foldl
      (fun bs k => setBucket bs (createEmptyDayStats k)) [])
      unknownDateStr = true
  · rwa [if_pos h]
  · rw [if_neg h]
    exact nodup_bucketKeys_setBucket hbase _

theorem bucketKeys_updateBucket (bs : List DailyModelStats) (k : String)
    (f : DailyModelStats → DailyModelStats)
    (hf : ∀ b, (f b).date = b.date) :
    bucketKeys (updateBucket bs k f) = bucketKeys bs := by
  simp only [bucketKeys, updateBucket, List.map_map]
  apply List.map_congr_left
  intro b _
  by_cases h : b.date = k <;> simp [Function.comp, h, hf b]

theorem bucketKeys_processItem (fmt : String → String)
    (bs : List DailyModelStats) (it : MetadataItem) :
    bucketKeys (processItem fmt bs it) = bucketKeys bs := by
  unfold processItem
  by_cases h : hasBucket bs (itemKey fmt it) = true
  · rw [if_pos h]
    exact bucketKeys_updateBucket bs _ _ (fun b => rfl)
  · rw [if_neg h]

theorem bucketKeys_processStep (fmt : String → String)
    (bs : List DailyModelStats) (s : Step) :
    bucketKeys (processStep fmt bs s) = bucketKeys bs := by
  cases hu : usageOf s with
  | none => simp [processStep, hu]
  | some u =>
    simp only [processStep, hu]
    by_cases h : hasBucket bs (stepKey fmt s) = true
    · rw [if_pos h]
      exact bucketKeys_updateBucket bs _ _ (fun b => rfl)
    · rw [if_neg h]

theorem bucketKeys_foldl_processItem (fmt : String → String) :
    ∀ (M : List MetadataItem) (bs : List DailyModelStats),
      bucketKeys (M.foldl (processItem fmt) bs) = bucketKeys bs
  | [], bs => rfl
  | it :: M, bs => by
    rw [List.foldl_cons, bucketKeys_foldl_processItem fmt M,
      bucketKeys_processItem]

theorem bucketKeys_foldl_processStep (fmt : String → String) :
    ∀ (S : List Step) (bs : List DailyModelStats),
      bucketKeys (S.foldl (processStep fmt) bs) = bucketKeys bs
  | [], bs => rfl
  | s :: S, bs => by
    rw [List.foldl_cons, bucketKeys_foldl_processStep fmt S,
      bucketKeys_processStep]

theorem bucketKeys_foldedBuckets (fmt : String → String)
    (wd : List String) (M : List MetadataItem) (S : List Step) :
    bucketKeys (foldedBuckets fmt wd M S) = bucketKeys (initBuckets wd) := by
  unfold foldedBuckets
  rw [bucketKeys_foldl_processStep, bucketKeys_foldl_processItem]

theorem hasBucket_iff_mem {bs : List DailyModelStats} {k : String} :
    hasBucket bs k = true ↔ k ∈ bucketKeys bs := by
  simp only [hasBucket, bucketKeys, List.any_eq_true, List.mem_map,
    decide_eq_true_eq]

theorem nodup_bucketKeys_dropUnknown {bs : List DailyModelStats}
    (h : (bucketKeys bs).Nodup) :
    (bucketKeys (dropUnknownIfEmpty bs)).Nodup := by
  cases hf : bs.find? (fun b => b.date = unknownDateStr) with
  | none => simpa [dropUnknownIfEmpty, hf] using h
  | some u =>
    by_cases hc : u.totals.inputTokens = 0 ∧ u.totals.outputTokens = 0
    · have hd : dropUnknownIfEmpty bs =
          bs.filter (fun b => ¬ b.date = unknownDateStr) := by
        simp [dropUnknownIfEmpty, hf, hc]
      rw [hd]
      exact List.Nodup.sublist
        (List.Sublist.map DailyModelStats.date (List.filter_sublist bs)) h
    · have hd : dropUnknownIfEmpty bs = bs := by
        simp [dropUnknownIfEmpty, hf, hc]
      rwa [hd]

theorem bucketKeys_map_eff (bs : List DailyModelStats) :
    bucketKeys (bs.map (fun d =>
      { d with cacheEfficiency := calculateCacheEfficiency d })) =
      bucketKeys bs := by
  simp only [bucketKeys, List.map_map]
  apply List.map_congr_left
  intro b _
  rfl

theorem calcEff_set_eff (d : DailyModelStats) (v : Int) :
    calculateCacheEfficiency { d with cacheEfficiency := v } =
      calculateCacheEfficiency d := rfl

theorem dayLe_eq_true_iff (a b : DailyModelStats) :
    dayLe a b = true ↔
      (¬ a.date = unknownDateStr ∧
        (b.date = unknownDateStr ∨ b.date ≤ a.date)) := by
  unfold dayLe
  by_cases ha : a.date = unknownDateStr
  · simp [ha]
  · rw [if_neg ha]
    by_cases hb : b.date = unknownDateStr
    · simp [ha, hb]
    · simp [ha, hb]

theorem dayLe_trans (a b c : DailyModelStats) (hab : dayLe a b = true)
    (hbc : dayLe b c = true) : dayLe a c = true := by
  rw [dayLe_eq_true_iff] at hab hbc ⊢
  obtain ⟨ha, hb⟩ := hab
  obtain ⟨hbn, hc⟩ := hbc
  refine ⟨ha, ?_⟩
  rcases hc with hcU | hcb
  · exact Or.inl hcU
  · rcases hb with hbU | hba
    · exact absurd hbU hbn
    · exact Or.inr (le_trans hcb hba)

theorem dayLe_total_ne (a b : DailyModelStats) (h : ¬ a.date = b.date) :
    dayLe a b = true ∨ dayLe b a = true := by
  rw [dayLe_eq_true_iff, dayLe_eq_true_iff]
  by_cases ha : a.date = unknownDateStr
  · right
    exact ⟨fun hb => h (ha.trans hb.symm), Or.inl ha⟩
  · by_cases hb : b.date = unknownDateStr
    · left
      exact ⟨ha, Or.inl hb⟩
    · rcases le_total a.date b.date with hle | hle
      · right
        exact ⟨hb, Or.inr hle⟩
      · left
        exact ⟨ha, Or.inr hle⟩

/-- C8 (amended): `aggregateByDay` omits the unknown-date bucket exactly
when that bucket's accumulated input-token and output-token totals are
both zero (so a bucket that only received cache-read tokens or zero-usage
calls is still dropped — "received no contributions" is not the test the
code applies); the returned buckets are sorted descending by date string
with the unknown-date bucket, when present, last; every retained bucket's
`cacheEfficiency` is `round(cacheRead / (input + cacheRead) * 100)` with
`0` for a zero denominator, and a bucket with totals `input = 100`,
`cacheRead = 20` gets `17`. -/
theorem C8_daily_output :
    (∀ (fmt : String → String) (wd : List String) (M : List MetadataItem)
        (S : List Step),
      ∃ u, (foldedBuckets fmt wd M S).find?
          (fun b => b.date = unknownDateStr) = some u ∧
        ((∃ d ∈ aggregateByDay fmt wd M S, d.date = unknownDateStr) ↔
          ¬ (u.totals.inputTokens = 0 ∧ u.totals.outputTokens = 0)) ∧
        (aggregateByDay fmt wd M S).Pairwise (fun a b =>
          ¬ a.date = unknownDateStr ∧
            (b.date = unknownDateStr ∨ b.date ≤ a.date)) ∧
        ∀ d ∈ aggregateByDay fmt wd M S,
          d.cacheEfficiency = calculateCacheEfficiency d) ∧
    (∀ d : DailyModelStats, calculateCacheEfficiency d =
      if d.totals.inputTokens + d.totals.cacheReadTokens = 0 then 0
      else round ((d.totals.cacheReadTokens : ℚ) /
        ((d.totals.inputTokens + d.totals.cacheReadTokens : Int) : ℚ)
        * 100)) ∧
    calculateCacheEfficiency ⟨"2026-01-01", [], ⟨100, 0, 20⟩, 0⟩ = 17 := by
  refine ⟨?_, fun d => rfl, by norm_num [calculateCacheEfficiency, round_eq]⟩
  intro fmt wd M S
  have hkeys : bucketKeys (foldedBuckets fmt wd M S) =
      bucketKeys (initBuckets wd) := bucketKeys_foldedBuckets fmt wd M S
  have hUmem : unknownDateStr ∈ bucketKeys (foldedBuckets fmt wd M S) := by
    rw [hkeys]
    exact hasBucket_iff_mem.mp (hasBucket_initBuckets_unknown wd)
  have hnd : (bucketKeys (foldedBuckets fmt wd M S)).Nodup := by
    rw [hkeys]
    exact nodup_bucketKeys_initBuckets wd
  obtain ⟨b0, hb0mem, hb0date⟩ := List.mem_map.mp hUmem
  have hout : aggregateByDay fmt wd M S =
      sortLe dayLe ((dropUnknownIfEmpty (foldedBuckets fmt wd M S)).map
        (fun d => { d with cacheEfficiency := calculateCacheEfficiency d })) :=
    rfl
  cases hu : (foldedBuckets fmt wd M S).find?
      (fun b => b.date = unknownDateStr) with
  | none =>
    exfalso
    have := List.find?_eq_none.mp hu b0 hb0mem
    simp [hb0date] at this
  | some u =>
    have hudate : u.date = unknownDateStr := by
      have := List.find?_some hu
      simpa using this
    have humem : u ∈ foldedBuckets fmt wd M S := List.mem_of_find?_eq_some hu
    have hWkeys : (bucketKeys
        ((dropUnknownIfEmpty (foldedBuckets fmt wd M S)).map
          (fun d => { d with
            cacheEfficiency := calculateCacheEfficiency d }))).Nodup := by
      rw [bucketKeys_map_eff]
      exact nodup_bucketKeys_dropUnknown hnd
    have hWnd : ((dropUnknownIfEmpty (foldedBuckets fmt wd M S)).map
        (fun d => { d with
          cacheEfficiency := calculateCacheEfficiency d })).Nodup :=
      List.Nodup.of_map DailyModelStats.date hWkeys
    refine ⟨u, rfl, ?_, ?_, ?_⟩
    · by_cases hc : u.totals.inputTokens = 0 ∧ u.totals.outputTokens = 0
      · have hdrop : dropUnknownIfEmpty (foldedBuckets fmt wd M S) =
            (foldedBuckets fmt wd M S).filter
              (fun b => ¬ b.date = unknownDateStr) := by
          simp [dropUnknownIfEmpty, hu, hc]
        constructor
        · rintro ⟨d, hd, hdU⟩
          exfalso
          rw [hout, hdrop] at hd
          obtain ⟨d0, hd0, hde⟩ := List.mem_map.mp (mem_sortLe.mp hd)
          have hne := List.of_mem_filter hd0
          simp only [decide_eq_true_eq] at hne
          apply hne
          rw [← hde] at hdU
          exact hdU
        · intro hcon
          exact absurd hc hcon
      · have hdrop : dropUnknownIfEmpty (foldedBuckets fmt wd M S) =
            foldedBuckets fmt wd M S := by
          simp [dropUnknownIfEmpty, hu, hc]
        constructor
        · intro _
          exact hc
        · intro _
          refine ⟨{ u with cacheEfficiency := calculateCacheEfficiency u },
            ?_, hudate⟩
          rw [hout, hdrop]
          exact mem_sortLe.mpr (List.mem_map.mpr ⟨u, humem, rfl⟩)
    · rw [hout]
      have hpw := sortLe_pairwise dayLe_trans _ hWnd
        (fun a ha b hb hne => dayLe_total_ne a b
          (fun hd => hne (List.inj_on_of_nodup_map hWkeys ha hb hd)))
      exact hpw.imp (fun h => (dayLe_eq_true_iff _ _).mp h)
    · intro d hd
      rw [hout] at hd
      obtain ⟨d0, hd0, hde⟩ := List.mem_map.mp (mem_sortLe.mp hd)
      rw [← hde]
      exact (calcEff_set_eff d0 _).symm

/-- Witness for C8's conditional parts: a concrete one-day window with no
records; the single returned bucket carries the recomputed cache
efficiency. -/
theorem C8_daily_output_witness :
    (⟨"2026-01-05", [], ⟨0, 0, 0⟩, 0⟩ : DailyModelStats).cacheEfficiency =
      calculateCacheEfficiency ⟨"2026-01-05", [], ⟨0, 0, 0⟩, 0⟩ := by
  obtain ⟨u, hu, hiff, hpw, heff⟩ :=
    C8_daily_output.1 (fun x => x) ["2026-01-05"] [] []
  refine heff ⟨"2026-01-05", [], ⟨0, 0, 0⟩, 0⟩ ?_
  have hfold : foldedBuckets (fun x => x) ["2026-01-05"] [] [] =
      [⟨"2026-01-05", [], ⟨0, 0, 0⟩, 0⟩, ⟨unknownDateStr, [], ⟨0, 0, 0⟩, 0⟩] := by
    decide
  have hdrop : dropUnknownIfEmpty
      [⟨"2026-01-05", [], ⟨0, 0, 0⟩, 0⟩, ⟨unknownDateStr, [], ⟨0, 0, 0⟩, 0⟩] =
      [⟨"2026-01-05", [], ⟨0, 0, 0⟩, 0⟩] := by
    decide
  show _ ∈ sortLe dayLe ((dropUnknownIfEmpty (foldedBuckets _ _ _ _)).map _)
  rw [hfold, hdrop, mem_sortLe]
  simp [calculateCacheEfficiency]

/-- Counterexample to C8 as stated: the unknown-date bucket below receives
a contribution (one call carrying 20 cache-read tokens) yet is omitted
from the output, because the drop test checks only the input and output
token totals. -/
theorem C8_unknown_drop_counterexample :
    (foldedBuckets (fun x => x) ["2026-01-05"]
        [⟨some ⟨none, some ⟨none, .missing, .missing, .num 20, .missing⟩,
          .missing, none⟩, none⟩] []).find?
        (fun b => b.date = unknownDateStr) =
      some ⟨unknownDateStr, [("Unknown", ⟨0, 0, 20, 1⟩)], ⟨0, 0, 20⟩, 0⟩ ∧
    ∀ d ∈ aggregateByDay (fun x => x) ["2026-01-05"]
        [⟨some ⟨none, some ⟨none, .missing, .missing, .num 20, .missing⟩,
          .missing, none⟩, none⟩] [],
      ¬ d.date = unknownDateStr := by
  constructor
  · decide
  · have hfold : foldedBuckets (fun x => x) ["2026-01-05"]
        [⟨some ⟨none, some ⟨none, .missing, .missing, .num 20, .missing⟩,
          .missing, none⟩, none⟩] [] =
        [⟨"2026-01-05", [], ⟨0, 0, 0⟩, 0⟩,
          ⟨unknownDateStr, [("Unknown", ⟨0, 0, 20, 1⟩)], ⟨0, 0, 20⟩, 0⟩] := by
      decide
    have hdrop : dropUnknownIfEmpty
        [⟨"2026-01-05", [], ⟨0, 0, 0⟩, 0⟩,
          ⟨unknownDateStr, [("Unknown", ⟨0, 0, 20, 1⟩)], ⟨0, 0, 20⟩, 0⟩] =
        [⟨"2026-01-05", [], ⟨0, 0, 0⟩, 0⟩] := by
      decide
    intro d hd
    rw [show aggregateByDay (fun x => x) ["2026-01-05"]
        [⟨some ⟨none, some ⟨none, .missing, .missing, .num 20, .missing⟩,
          .missing, none⟩, none⟩] [] =
        sortLe dayLe ((dropUnknownIfEmpty (foldedBuckets (fun x => x)
          ["2026-01-05"]
          [⟨some ⟨none, some ⟨none, .missing, .missing, .num 20, .missing⟩,
            .missing, none⟩, none⟩] [])).map
          (fun d => { d with
            cacheEfficiency := calculateCacheEfficiency d })) from rfl,
      hfold, hdrop] at hd
    have := mem_sortLe.mp hd
    simp only [List.map_cons, List.map_nil, List.mem_singleton] at this
    rw [this]
    simp [unknownDateStr]
